import Mathlib

/-!
# PS-PL data exchange: the polling loop of code/Vitis/main.c

The processor side of the bridge polls four 32-bit registers shared with the
programmable logic (slaveaddr_p + 0 .. slaveaddr_p + 3, called R0..R3) and
advances two handshakes per loop pass: the send step (console to PL, driven by
R3 and the one-byte latch last_send_request) and the receive step (PL to
console, driven by R2 and acknowledged on R1).

The embedding is shallow.  Machine words are natural numbers; a cast to
Xuint8 is a reduction modulo 256.  Everything the loop reads from its environment in one
pass (the R3 word, the state of the UART, the R2 word) is an explicit input,
and everything it does to its environment is recorded as a list of events in
program order.  The loop never exits, so a run is a finite prefix of it: one
input record per pass.
-/

namespace Vitis

/-- Observable actions of the program, in the vocabulary of the source. -/
inductive Event where
  /-- The start-up call that prints the greeting line. -/
  | banner : Event
  /-- Read of the register at word offset idx, yielding val. -/
  | readReg (idx : Nat) (val : Nat) : Event
  /-- Write of val to the register at word offset idx. -/
  | writeReg (idx : Nat) (val : Nat) : Event
  /-- Evaluation of XUartPs_IsReceiveData on the console UART. -/
  | uartStatus (rx : Bool) : Event
  /-- Read of the UART receive FIFO register, yielding word. -/
  | uartFifo (word : Nat) : Event
  /-- The call of xil_printf with the %c format and the argument arg. -/
  | printc (arg : Nat) : Event
  deriving DecidableEq, Repr

/-- State of the console UART as one loop pass finds it.  The two driver
macros used by the source are not part of the repository, so their outcomes
are inputs: rxData is what XUartPs_IsReceiveData evaluates to (a C truth
value, 0 or 1) and fifo is the word XUartPs_ReadReg returns for the receive
FIFO register. -/
structure Uart where
  rxData : Bool
  fifo : Nat
  deriving DecidableEq, Repr

/-- Everything one loop pass reads from its environment. -/
structure IterIn where
  r3 : Nat
  uart : Uart
  r2 : Nat
  deriving DecidableEq, Repr

/-- Outcome of one call of unwaited_read: the byte stored through the valid
pointer, the returned byte, and the device accesses performed. -/
structure ReadResult where
  valid : Nat
  byte : Nat
  events : List Event
  deriving DecidableEq, Repr

/-- The macro is_valid(data): ((data & (1<<8)) > 0), a C truth value. -/
def is_valid (data : Nat) : Nat :=
  if (data &&& (1 <<< 8)) > 0 then 1 else 0

/-- The function unwaited_read. -/
def unwaited_read (u : Uart) : ReadResult :=
  let valid := (if u.rxData then 1 else 0) % 256
  if valid = 0 then
    { valid := valid, byte := 0, events := [Event.uartStatus u.rxData] }
  else
    { valid := valid, byte := u.fifo % 256,
      events := [Event.uartStatus u.rxData, Event.uartFifo u.fifo] }

/-- The first half of the loop body (send chars from usart to PL): returns
the new value of last_send_request and the events performed. -/
def sendStep (last_send_request : Nat) (r3 : Nat) (u : Uart) : Nat × List Event :=
  let send_request := (r3 &&& 0x01) % 256
  if send_request > 0 then
    if send_request ≠ last_send_request then
      let r := unwaited_read u
      if r.valid ≠ 0 then
        let data := r.byte ||| (1 <<< 8)
        (send_request, Event.readReg 3 r3 :: (r.events ++ [Event.writeReg 0 data]))
      else
        (last_send_request, Event.readReg 3 r3 :: r.events)
    else
      (last_send_request, [Event.readReg 3 r3])
  else
    (send_request, [Event.readReg 3 r3, Event.writeReg 0 0])

/-- The second half of the loop body (print data from PL to usart). -/
def recvStep (r2 : Nat) : List Event :=
  let data := r2
  let print_request := is_valid data % 256
  if print_request ≠ 0 then
    [Event.readReg 2 r2, Event.printc (data &&& 0xFFFF), Event.writeReg 1 1]
  else
    [Event.readReg 2 r2, Event.writeReg 1 0]

/-- One pass of the while loop: the send step, then the receive step. -/
def iteration (last_send_request : Nat) (i : IterIn) : Nat × List Event :=
  let s := sendStep last_send_request i.r3 i.uart
  (s.1, s.2 ++ recvStep i.r2)

/-- Finitely many passes of the while loop, one per input record; returns the
final latch and the events of each pass. -/
def mainLoop (last_send_request : Nat) : List IterIn → Nat × List (List Event)
  | [] => (last_send_request, [])
  | i :: rest =>
    let s := iteration last_send_request i
    let r := mainLoop s.1 rest
    (r.1, s.2 :: r.2)

/-- The function main, cut after as many passes as there are inputs:
last_send_request starts at 0, the greeting is printed, the loop runs. -/
def main (inputs : List IterIn) : List Event × Nat × List (List Event) :=
  let last_send_request := 0
  ([Event.banner], mainLoop last_send_request inputs)

/-! ## Observers on event lists -/

/-- Values written to the register at word offset idx, in order. -/
def regWrites (idx : Nat) (evs : List Event) : List Nat :=
  evs.filterMap fun e =>
    match e with
    | Event.writeReg j v => if j = idx then some v else none
    | _ => none

/-- Arguments handed to the character print call, in order. -/
def printArgs (evs : List Event) : List Nat :=
  evs.filterMap fun e =>
    match e with
    | Event.printc a => some a
    | _ => none

/-- Words read from the UART receive FIFO, in order. -/
def fifoReads (evs : List Event) : List Nat :=
  evs.filterMap fun e =>
    match e with
    | Event.uartFifo w => some w
    | _ => none

/-- Number of times the UART was asked whether it holds receive data, which
happens once per call of unwaited_read. -/
def consoleCalls (evs : List Event) : Nat :=
  evs.countP fun e =>
    match e with
    | Event.uartStatus _ => true
    | _ => false

/-- The valid flag of a data register word: bit 8. -/
def validBit (w : Nat) : Bool := w.testBit 8

/-- Writes to R0 whose valid bit is set. -/
def validSends (evs : List Event) : List Nat :=
  (regWrites 0 evs).filter validBit

/-- The request value the send step derives from the R3 word. -/
def sendRequest (r3 : Nat) : Nat := (r3 &&& 0x01) % 256

/-- The byte field of a data register word under the register layout:
bits 7..0. -/
def dataByte (w : Nat) : Nat := w &&& 0xFF

/-- Values read from the register at word offset idx, in order. -/
def regReads (idx : Nat) (evs : List Event) : List Nat :=
  evs.filterMap fun e =>
    match e with
    | Event.readReg j v => if j = idx then some v else none
    | _ => none

/-- Word offsets of all register writes, in order. -/
def writtenRegs (evs : List Event) : List Nat :=
  evs.filterMap fun e =>
    match e with
    | Event.writeReg j _ => some j
    | _ => none

/-- The word most recently written to R0 over a history of passes (oldest
first), if R0 has been written at all. -/
def lastR0Write (hist : List (List Event)) : Option Nat :=
  (regWrites 0 hist.flatten).getLast?

/-! ## The latch as the specification describes it -/

/-- A pass counts for the latch when it wrote a valid byte to R0 or observed
the request deasserted. -/
def latchRelevant (i : IterIn) (evs : List Event) : Bool :=
  decide (validSends evs ≠ []) || decide (sendRequest i.r3 = 0)

/-- The specification's reading of last_send_request after a history of
passes (inputs paired with the events of the pass, oldest first): the request
value observed at the most recent pass that counts for the latch, and 0 when
there is none. -/
def latchSpec (hist : List (IterIn × List Event)) : Nat :=
  match hist.reverse.find? fun p => latchRelevant p.1 p.2 with
  | some p => sendRequest p.1.r3
  | none => 0

/-! ## Basic facts -/

theorem sendRequest_eq_mod (r3 : Nat) : sendRequest r3 = r3 % 2 := by
  unfold sendRequest
  rw [Nat.and_one_is_mod]
  omega

theorem sendStep_deassert (l r3 : Nat) (u : Uart) (h : r3 % 2 = 0) :
    sendStep l r3 u = (0, [Event.readReg 3 r3, Event.writeReg 0 0]) := by
  unfold sendStep
  simp [Nat.and_one_is_mod, h]

theorem sendStep_serviced (r3 : Nat) (u : Uart) (h : r3 % 2 = 1) :
    sendStep 1 r3 u = (1, [Event.readReg 3 r3]) := by
  unfold sendStep
  simp [Nat.and_one_is_mod, h]

theorem sendStep_nobyte (l r3 : Nat) (u : Uart) (h : r3 % 2 = 1) (hl : l ≠ 1)
    (hu : u.rxData = false) :
    sendStep l r3 u = (l, [Event.readReg 3 r3, Event.uartStatus false]) := by
  unfold sendStep unwaited_read
  simp [Nat.and_one_is_mod, h, hu, Ne.symm hl]

theorem sendStep_send (l r3 : Nat) (u : Uart) (h : r3 % 2 = 1) (hl : l ≠ 1)
    (hu : u.rxData = true) :
    sendStep l r3 u =
      (1, [Event.readReg 3 r3, Event.uartStatus true, Event.uartFifo u.fifo,
           Event.writeReg 0 (u.fifo % 256 ||| 256)]) := by
  unfold sendStep unwaited_read
  simp [Nat.and_one_is_mod, h, hu, Ne.symm hl]

theorem regWrites_append (idx : Nat) (a b : List Event) :
    regWrites idx (a ++ b) = regWrites idx a ++ regWrites idx b := by
  simp [regWrites, List.filterMap_append]

theorem and_256 (n : Nat) : n &&& 256 = if n.testBit 8 then 256 else 0 := by
  apply Nat.eq_of_testBit_eq
  intro i
  have h256 : (256 : Nat) = 2 ^ 8 := rfl
  rw [Nat.testBit_and]
  by_cases hi : 8 = i
  · subst hi
    cases h : n.testBit 8 <;> simp
  · have h2 : Nat.testBit 256 i = false := by
      rw [h256, Nat.testBit_two_pow]
      simp [hi]
    cases h : n.testBit 8 <;> simp [h2]

theorem is_valid_eq (data : Nat) : is_valid data = if data.testBit 8 then 1 else 0 := by
  unfold is_valid
  have h : (1 <<< 8 : Nat) = 256 := rfl
  rw [h, and_256]
  cases data.testBit 8 <;> simp

theorem recvStep_cases (r2 : Nat) :
    recvStep r2 = (if r2.testBit 8 then
        [Event.readReg 2 r2, Event.printc (r2 &&& 0xFFFF), Event.writeReg 1 1]
      else [Event.readReg 2 r2, Event.writeReg 1 0]) := by
  unfold recvStep
  simp only [is_valid_eq]
  cases r2.testBit 8 <;> simp

theorem mainLoop_append (l : Nat) (a b : List IterIn) :
    mainLoop l (a ++ b) =
      ((mainLoop (mainLoop l a).1 b).1, (mainLoop l a).2 ++ (mainLoop (mainLoop l a).1 b).2) := by
  induction a generalizing l with
  | nil => simp [mainLoop]
  | cons i rest ih => simp [mainLoop, ih]

theorem mainLoop_length (l : Nat) (a : List IterIn) : (mainLoop l a).2.length = a.length := by
  induction a generalizing l with
  | nil => simp [mainLoop]
  | cons i rest ih => simp [mainLoop, ih]

theorem mainLoop_segment (l : Nat) (pre run post : List IterIn) :
    ((mainLoop l (pre ++ run ++ post)).2.drop pre.length).take run.length =
      (mainLoop (mainLoop l pre).1 run).2 := by
  rw [List.append_assoc, mainLoop_append, mainLoop_append]
  simp only
  rw [List.drop_left' (mainLoop_length l pre), List.take_left' (mainLoop_length _ run)]

theorem regWrites_zero_recvStep (r2 : Nat) : regWrites 0 (recvStep r2) = [] := by
  rw [recvStep_cases]
  cases r2.testBit 8 <;> simp [regWrites]

theorem iteration_r0 (l : Nat) (i : IterIn) :
    regWrites 0 (iteration l i).2 = regWrites 0 (sendStep l i.r3 i.uart).2 := by
  simp [iteration, regWrites_append, regWrites_zero_recvStep]

theorem testBit_zero_iff (n : Nat) : n.testBit 0 = true ↔ n % 2 = 1 := by
  simp [Nat.testBit_zero]

theorem validBit_send (w : Nat) : validBit (w % 256 ||| 256) = true := by
  unfold validBit
  rw [Nat.testBit_or]
  have : Nat.testBit 256 8 = true := by decide
  simp [this]

theorem validSends_iteration (l : Nat) (i : IterIn) :
    validSends (iteration l i).2 = (regWrites 0 (sendStep l i.r3 i.uart).2).filter validBit := by
  unfold validSends
  rw [iteration_r0]

/-- Within a run of passes that all read the request asserted, a serviced
latch yields no valid send at all, and any latch yields at most one. -/
theorem run_validSends (l : Nat) (run : List IterIn) (h : ∀ i ∈ run, i.r3 % 2 = 1) :
    (l = 1 → ((mainLoop l run).2.map fun evs => (validSends evs).length).sum = 0) ∧
      ((mainLoop l run).2.map fun evs => (validSends evs).length).sum ≤ 1 := by
  induction run generalizing l with
  | nil => simp [mainLoop]
  | cons i rest ih =>
    have hi : i.r3 % 2 = 1 := h i (List.mem_cons_self _ _)
    have hrest : ∀ j ∈ rest, j.r3 % 2 = 1 := fun j hj => h j (List.mem_cons_of_mem _ hj)
    by_cases hl : l = 1
    · subst hl
      have hs := sendStep_serviced i.r3 i.uart hi
      have h1 : (iteration 1 i).1 = 1 := by simp [iteration, hs]
      have h2 : validSends (iteration 1 i).2 = [] := by
        rw [validSends_iteration, hs]
        simp [regWrites]
      have h3 := (ih 1 hrest).1 rfl
      simp only [mainLoop, h1, List.map_cons, List.sum_cons, h2, List.length_nil, h3]
      simp
    · cases hu : i.uart.rxData with
      | false =>
        have hs := sendStep_nobyte l i.r3 i.uart hi hl hu
        have h1 : (iteration l i).1 = l := by simp [iteration, hs]
        have h2 : validSends (iteration l i).2 = [] := by
          rw [validSends_iteration, hs]
          simp [regWrites]
        have h3 := (ih l hrest).2
        simp only [mainLoop, h1, List.map_cons, List.sum_cons, h2, List.length_nil]
        exact ⟨fun h => absurd h hl, by omega⟩
      | true =>
        have hs := sendStep_send l i.r3 i.uart hi hl hu
        have h1 : (iteration l i).1 = 1 := by simp [iteration, hs]
        have h2 : validSends (iteration l i).2 = [i.uart.fifo % 256 ||| 256] := by
          rw [validSends_iteration, hs]
          simp [regWrites, validBit_send]
        have h3 := (ih 1 hrest).1 rfl
        simp only [mainLoop, h1, List.map_cons, List.sum_cons, h2, List.length_singleton, h3]
        exact ⟨fun h => absurd h hl, by omega⟩

/-- C1. No duplicate sends: from any latch value, over any input sequence, in
any stretch of consecutive passes that all read bit 0 of R3 as 1 (so in
particular in every maximal such stretch), at most one write to R0 carries
the valid bit. -/
theorem C1_no_duplicate_sends (l : Nat) (pre run post : List IterIn)
    (h : ∀ i ∈ run, i.r3.testBit 0 = true) :
    ((((mainLoop l (pre ++ run ++ post)).2.drop pre.length).take run.length).map
      fun evs => (validSends evs).length).sum ≤ 1 := by
  rw [mainLoop_segment]
  exact (run_validSends _ run (fun i hi => (testBit_zero_iff _).1 (h i hi))).2

theorem C1_no_duplicate_sends_witness :
    (∀ i ∈ [IterIn.mk 1 (Uart.mk true 0x41) 0, IterIn.mk 1 (Uart.mk true 0x42) 0],
        i.r3.testBit 0 = true) ∧
    ((((mainLoop 0 ([IterIn.mk 0 (Uart.mk false 0) 0] ++
          [IterIn.mk 1 (Uart.mk true 0x41) 0, IterIn.mk 1 (Uart.mk true 0x42) 0] ++
          [IterIn.mk 0 (Uart.mk true 0x43) 0])).2.drop
        [IterIn.mk 0 (Uart.mk false 0) 0].length).take
        [IterIn.mk 1 (Uart.mk true 0x41) 0, IterIn.mk 1 (Uart.mk true 0x42) 0].length).map
      fun evs => (validSends evs).length).sum ≤ 1 :=
  ⟨by decide, C1_no_duplicate_sends 0 _ _ _ (by decide)⟩

theorem iteration_latch (l : Nat) (i : IterIn) :
    (iteration l i).1 = (sendStep l i.r3 i.uart).1 := rfl

theorem or_256_lt (w : Nat) : w % 256 ||| 256 < 512 := by
  have h1 : w % 256 < 2 ^ 9 := by
    have := Nat.mod_lt w (show 256 > 0 by decide)
    omega
  have h2 : (256 : Nat) < 2 ^ 9 := by decide
  exact Nat.or_lt_two_pow h1 h2

theorem or_256_ge (w : Nat) : 256 ≤ w % 256 ||| 256 := by
  have h := validBit_send w
  unfold validBit at h
  exact Nat.testBit_implies_ge h

/-- While the latch is 1, a run of passes that all read the request asserted
only reads R3 and runs the receive step; the latch stays 1. -/
theorem run_serviced (run : List IterIn) (h : ∀ i ∈ run, i.r3 % 2 = 1) :
    mainLoop 1 run = (1, run.map fun i => Event.readReg 3 i.r3 :: recvStep i.r2) := by
  induction run with
  | nil => simp [mainLoop]
  | cons i rest ih =>
    have hi : i.r3 % 2 = 1 := h i (List.mem_cons_self _ _)
    have hrest : ∀ j ∈ rest, j.r3 % 2 = 1 := fun j hj => h j (List.mem_cons_of_mem _ hj)
    have hs := sendStep_serviced i.r3 i.uart hi
    simp [mainLoop, iteration, hs, ih hrest]

theorem run_nobyte (l : Nat) (hl : l ≠ 1) (run : List IterIn)
    (h : ∀ i ∈ run, i.r3 % 2 = 1 ∧ i.uart.rxData = false) :
    mainLoop l run =
      (l, run.map fun i => Event.readReg 3 i.r3 :: Event.uartStatus false :: recvStep i.r2) := by
  induction run with
  | nil => simp [mainLoop]
  | cons i rest ih =>
    have hi := h i (List.mem_cons_self _ _)
    have hrest : ∀ j ∈ rest, j.r3 % 2 = 1 ∧ j.uart.rxData = false :=
      fun j hj => h j (List.mem_cons_of_mem _ hj)
    have hs := sendStep_nobyte l i.r3 i.uart hi.1 hl hi.2
    simp [mainLoop, iteration, hs, ih hrest]

theorem regWrites_zero_serviced (r3 r2 : Nat) :
    regWrites 0 (Event.readReg 3 r3 :: recvStep r2) = [] := by
  have h : Event.readReg 3 r3 :: recvStep r2 = [Event.readReg 3 r3] ++ recvStep r2 := rfl
  rw [h, regWrites_append, regWrites_zero_recvStep]
  simp [regWrites]

theorem regWrites_zero_nobyte (r3 r2 : Nat) :
    regWrites 0 (Event.readReg 3 r3 :: Event.uartStatus false :: recvStep r2) = [] := by
  have h : Event.readReg 3 r3 :: Event.uartStatus false :: recvStep r2 =
      [Event.readReg 3 r3, Event.uartStatus false] ++ recvStep r2 := rfl
  rw [h, regWrites_append, regWrites_zero_recvStep]
  simp [regWrites]

/-- C2. Retry until a byte is available.  Start with the latch at 0 and let
every pass of pre, x and post read bit 0 of R3 as 1; pre has no console byte,
x is the first pass with one.  Then the passes of pre write nothing to R0 and
keep the latch at 0, the pass x writes exactly (byte | 0x100) to R0 and sets
the latch to the request value 1, and the passes of post write nothing to R0.
In the scenario R3 = [0,1,1,1,0] with no byte at pass 2 and the byte 0x41 at
pass 3 the R0 writes are [0], none, [0x141], none, [0], whatever the UART
holds at passes 1, 4 and 5 and whatever R2 reads. -/
theorem C2_retry_until_byte (pre post : List IterIn) (x : IterIn)
    (hpre : ∀ i ∈ pre, i.r3.testBit 0 = true ∧ i.uart.rxData = false)
    (hx : x.r3.testBit 0 = true ∧ x.uart.rxData = true)
    (hpost : ∀ i ∈ post, i.r3.testBit 0 = true) :
    (main (pre ++ x :: post)).2.2.map (regWrites 0) =
        List.replicate pre.length [] ++
          [x.uart.fifo % 256 ||| 0x100] :: List.replicate post.length [] ∧
      (∀ k, k ≤ pre.length → (main (pre.take k)).2.1 = 0) ∧
      (main (pre ++ [x])).2.1 = sendRequest x.r3 ∧
      sendRequest x.r3 = 1 ∧
      ∀ (u1 u4 u5 : Uart) (f2 a b c d e : Nat),
        (main [IterIn.mk 0 u1 a, IterIn.mk 1 (Uart.mk false f2) b,
            IterIn.mk 1 (Uart.mk true 0x41) c, IterIn.mk 1 u4 d,
            IterIn.mk 0 u5 e]).2.2.map (regWrites 0) = [[0], [], [0x141], [], [0]] := by
  have hpre2 : ∀ i ∈ pre, i.r3 % 2 = 1 ∧ i.uart.rxData = false :=
    fun i hi => ⟨(testBit_zero_iff _).1 (hpre i hi).1, (hpre i hi).2⟩
  have hx2 : x.r3 % 2 = 1 := (testBit_zero_iff _).1 hx.1
  have hpost2 : ∀ i ∈ post, i.r3 % 2 = 1 := fun i hi => (testBit_zero_iff _).1 (hpost i hi)
  have h01 : (0 : Nat) ≠ 1 := by decide
  have hsx := sendStep_send 0 x.r3 x.uart hx2 h01 hx.2
  refine ⟨?_, ?_, ?_, ?_, ?_⟩
  · simp only [main]
    rw [mainLoop_append, run_nobyte 0 h01 pre hpre2]
    simp only [mainLoop, iteration, hsx, run_serviced post hpost2]
    simp only [List.map_append, List.map_cons, List.map_map]
    congr 1
    · rw [List.eq_replicate_iff]
      simp [regWrites_zero_nobyte]
    · congr 1
      · rw [regWrites_append, regWrites_zero_recvStep]
        simp [regWrites]
      · rw [List.eq_replicate_iff]
        simp [regWrites_zero_serviced]
  · intro k _
    simp only [main]
    rw [run_nobyte 0 h01 (pre.take k) (fun i hi => hpre2 i (List.mem_of_mem_take hi))]
  · simp only [main]
    rw [mainLoop_append, run_nobyte 0 h01 pre hpre2]
    simp [mainLoop, iteration, hsx, sendRequest_eq_mod, hx2]
  · rw [sendRequest_eq_mod, hx2]
  · intro u1 u4 u5 f2 a b c d e
    have s1 := sendStep_deassert 0 0 u1 (by decide)
    have s2 := sendStep_nobyte 0 1 (Uart.mk false f2) (by decide) h01 rfl
    have s3 := sendStep_send 0 1 (Uart.mk true 0x41) (by decide) h01 rfl
    have s4 := sendStep_serviced 1 u4 (by decide)
    have s5 := sendStep_deassert 1 0 u5 (by decide)
    simp only [main, mainLoop, iteration, s1, s2, s3, s4, s5, List.map_cons, List.map_nil,
      regWrites_append, regWrites_zero_recvStep]
    simp [regWrites]

theorem C2_retry_until_byte_witness :
    (∀ i ∈ [IterIn.mk 1 (Uart.mk false 0) 0, IterIn.mk 3 (Uart.mk false 7) 0],
        i.r3.testBit 0 = true ∧ i.uart.rxData = false) ∧
      ((IterIn.mk 1 (Uart.mk true 0x41) 0).r3.testBit 0 = true ∧
        (IterIn.mk 1 (Uart.mk true 0x41) 0).uart.rxData = true) ∧
      (∀ i ∈ [IterIn.mk 1 (Uart.mk true 0x42) 0], i.r3.testBit 0 = true) ∧
      (main ([IterIn.mk 1 (Uart.mk false 0) 0, IterIn.mk 3 (Uart.mk false 7) 0] ++
          IterIn.mk 1 (Uart.mk true 0x41) 0 :: [IterIn.mk 1 (Uart.mk true 0x42) 0])).2.2.map
        (regWrites 0) = [[], [], [0x141], []] :=
  ⟨by decide, by decide, by decide,
    (C2_retry_until_byte [IterIn.mk 1 (Uart.mk false 0) 0, IterIn.mk 3 (Uart.mk false 7) 0]
      [IterIn.mk 1 (Uart.mk true 0x42) 0] (IterIn.mk 1 (Uart.mk true 0x41) 0)
      (by decide) (by decide) (by decide)).1⟩

/-- C3. Deassert clears and rearms: whatever the latch and whatever the UART
holds, a pass that reads R3 = 0 writes exactly the word 0 to R0 (valid bit
clear, byte field 0) and leaves the latch at 0; the next pass that reads
bit 0 of R3 as 1 with a console byte available then sends that byte. -/
theorem C3_deassert_clears_and_rearms (l : Nat) (i j : IterIn) (h0 : i.r3 = 0)
    (h1 : j.r3.testBit 0 = true) (hj : j.uart.rxData = true) :
    regWrites 0 (iteration l i).2 = [0] ∧
      validBit 0 = false ∧ dataByte 0 = 0 ∧
      (iteration l i).1 = 0 ∧
      regWrites 0 (iteration (iteration l i).1 j).2 = [j.uart.fifo % 256 ||| 0x100] ∧
      validSends (iteration (iteration l i).1 j).2 = [j.uart.fifo % 256 ||| 0x100] ∧
      (iteration (iteration l i).1 j).1 = 1 := by
  have hs := sendStep_deassert l i.r3 i.uart (by rw [h0])
  have hl : (iteration l i).1 = 0 := by rw [iteration_latch, hs]
  have hs2 := sendStep_send 0 j.r3 j.uart ((testBit_zero_iff _).1 h1) (by decide) hj
  have hw : regWrites 0 (iteration 0 j).2 = [j.uart.fifo % 256 ||| 0x100] := by
    rw [iteration_r0, hs2]
    simp [regWrites]
  refine ⟨?_, by decide, by decide, hl, ?_, ?_, ?_⟩
  · rw [iteration_r0, hs]
    simp [regWrites]
  · rw [hl, hw]
  · rw [hl]
    unfold validSends
    rw [hw]
    simp [validBit_send]
  · rw [hl, iteration_latch, hs2]

theorem C3_deassert_clears_and_rearms_witness :
    (IterIn.mk 0 (Uart.mk true 0x41) 0x15A).r3 = 0 ∧
      (IterIn.mk 1 (Uart.mk true 0x42) 0).r3.testBit 0 = true ∧
      (IterIn.mk 1 (Uart.mk true 0x42) 0).uart.rxData = true ∧
      regWrites 0 (iteration 1 (IterIn.mk 0 (Uart.mk true 0x41) 0x15A)).2 = [0] ∧
      (iteration 1 (IterIn.mk 0 (Uart.mk true 0x41) 0x15A)).1 = 0 ∧
      regWrites 0 (iteration (iteration 1 (IterIn.mk 0 (Uart.mk true 0x41) 0x15A)).1
        (IterIn.mk 1 (Uart.mk true 0x42) 0)).2 = [0x142] :=
  have h := C3_deassert_clears_and_rearms 1 (IterIn.mk 0 (Uart.mk true 0x41) 0x15A)
    (IterIn.mk 1 (Uart.mk true 0x42) 0) rfl (by decide) rfl
  ⟨rfl, by decide, rfl, h.1, h.2.2.2.1, h.2.2.2.2.1⟩

theorem regWrites_one_sendStep (l r3 : Nat) (u : Uart) :
    regWrites 1 (sendStep l r3 u).2 = [] := by
  rcases Nat.mod_two_eq_zero_or_one r3 with h | h
  · rw [sendStep_deassert l r3 u h]
    simp [regWrites]
  · by_cases hl : l = 1
    · subst hl
      rw [sendStep_serviced r3 u h]
      simp [regWrites]
    · cases hu : u.rxData with
      | false =>
        rw [sendStep_nobyte l r3 u h hl hu]
        simp [regWrites]
      | true =>
        rw [sendStep_send l r3 u h hl hu]
        simp [regWrites]

theorem regWrites_one_recvStep (r2 : Nat) :
    regWrites 1 (recvStep r2) = [if r2.testBit 8 then 1 else 0] := by
  rw [recvStep_cases]
  cases r2.testBit 8 <;> simp [regWrites]

theorem regWrites_one_iteration (l : Nat) (i : IterIn) :
    regWrites 1 (iteration l i).2 = [if i.r2.testBit 8 then 1 else 0] := by
  simp only [iteration]
  rw [regWrites_append, regWrites_one_sendStep, regWrites_one_recvStep]
  rfl

/-- C4. Acknowledge iff valid: in every pass, for every word read from R2,
R1 is written exactly once, by the receive step, with 1 when bit 8 of the R2
word is set and 0 otherwise; the latch, R3 and the UART play no part. -/
theorem C4_ack_iff_valid (l : Nat) (i : IterIn) :
    regWrites 1 (iteration l i).2 = [if i.r2.testBit 8 then 1 else 0] ∧
      regWrites 1 (recvStep i.r2) = [if i.r2.testBit 8 then 1 else 0] ∧
      regWrites 1 (sendStep l i.r3 i.uart).2 = [] := by
  exact ⟨regWrites_one_iteration l i, regWrites_one_recvStep _, regWrites_one_sendStep _ _ _⟩

/-- The four ways the send step can go. -/
theorem sendStep_cases (l r3 : Nat) (u : Uart) :
    (r3 % 2 = 0 ∧ sendStep l r3 u = (0, [Event.readReg 3 r3, Event.writeReg 0 0])) ∨
    (r3 % 2 = 1 ∧ l = 1 ∧ sendStep l r3 u = (l, [Event.readReg 3 r3])) ∨
    (r3 % 2 = 1 ∧ l ≠ 1 ∧ u.rxData = false ∧
      sendStep l r3 u = (l, [Event.readReg 3 r3, Event.uartStatus false])) ∨
    (r3 % 2 = 1 ∧ l ≠ 1 ∧ u.rxData = true ∧
      sendStep l r3 u = (1, [Event.readReg 3 r3, Event.uartStatus true, Event.uartFifo u.fifo,
        Event.writeReg 0 (u.fifo % 256 ||| 256)])) := by
  rcases Nat.mod_two_eq_zero_or_one r3 with h | h
  · exact Or.inl ⟨h, sendStep_deassert l r3 u h⟩
  · by_cases hl : l = 1
    · subst hl
      exact Or.inr (Or.inl ⟨h, rfl, sendStep_serviced r3 u h⟩)
    · cases hu : u.rxData with
      | false => exact Or.inr (Or.inr (Or.inl ⟨h, hl, rfl, sendStep_nobyte l r3 u h hl hu⟩))
      | true => exact Or.inr (Or.inr (Or.inr ⟨h, hl, rfl, sendStep_send l r3 u h hl hu⟩))

theorem printArgs_append (a b : List Event) :
    printArgs (a ++ b) = printArgs a ++ printArgs b := by
  simp [printArgs, List.filterMap_append]

theorem fifoReads_append (a b : List Event) :
    fifoReads (a ++ b) = fifoReads a ++ fifoReads b := by
  simp [fifoReads, List.filterMap_append]

theorem printArgs_sendStep (l r3 : Nat) (u : Uart) : printArgs (sendStep l r3 u).2 = [] := by
  rcases sendStep_cases l r3 u with h | h | h | h
  · rw [h.2]; simp [printArgs]
  · rw [h.2.2]; simp [printArgs]
  · rw [h.2.2.2]; simp [printArgs]
  · rw [h.2.2.2]; simp [printArgs]

theorem printArgs_recvStep (r2 : Nat) :
    printArgs (recvStep r2) = if r2.testBit 8 then [r2 &&& 0xFFFF] else [] := by
  rw [recvStep_cases]
  cases r2.testBit 8 <;> simp [printArgs]

theorem fifoReads_recvStep (r2 : Nat) : fifoReads (recvStep r2) = [] := by
  rw [recvStep_cases]
  cases r2.testBit 8 <;> simp [fifoReads]

theorem printArgs_iteration (l : Nat) (i : IterIn) :
    printArgs (iteration l i).2 = if i.r2.testBit 8 then [i.r2 &&& 0xFFFF] else [] := by
  simp only [iteration]
  rw [printArgs_append, printArgs_sendStep, printArgs_recvStep]
  rfl

theorem or_256_and_mask (w : Nat) : (w % 256 ||| 256) &&& 0xFFFF = w % 256 ||| 256 := by
  have h : (0xFFFF : Nat) = 2 ^ 16 - 1 := by decide
  rw [h, Nat.and_pow_two_sub_one_eq_mod]
  apply Nat.mod_eq_of_lt
  have := or_256_lt w
  omega

theorem or_256_mod_gen (a : Nat) : (a ||| 2 ^ 8) % 2 ^ 8 = a % 2 ^ 8 := by
  apply Nat.eq_of_testBit_eq
  intro k
  rw [Nat.testBit_mod_two_pow, Nat.testBit_mod_two_pow, Nat.testBit_or, Nat.testBit_two_pow]
  by_cases hk : k < 8
  · have h8 : ¬ (8 = k) := by omega
    simp [hk, h8]
  · simp [hk]

theorem or_256_mod (w : Nat) : (w % 256 ||| 256) % 256 = w % 256 := by
  have h := or_256_mod_gen (w % 256)
  have e : (2 : Nat) ^ 8 = 256 := by decide
  rw [e] at h
  rw [h, Nat.mod_mod]

theorem or_256_ne (w : Nat) : w % 256 ||| 256 ≠ w % 256 := by
  have h1 := or_256_ge w
  have h2 := Nat.mod_lt w (show 256 > 0 by decide)
  omega

/-- C5 (behaviour of the code, which departs from the claim).  When R2 holds
a byte with the valid bit set, the receive step calls the print routine once
and writes 1 to R1, but the argument it hands over is the R2 word masked with
0xFFFF, which still carries the valid bit: for the byte 0x41 the argument is
0x141, not 0x41. -/
theorem C5_print_argument_keeps_valid_bit (b : Nat) :
    printArgs (recvStep (b % 256 ||| 0x100)) = [b % 256 ||| 0x100] ∧
      regWrites 1 (recvStep (b % 256 ||| 0x100)) = [1] ∧
      b % 256 ||| 0x100 ≠ b % 256 ∧
      recvStep 0x141 = [Event.readReg 2 0x141, Event.printc 0x141, Event.writeReg 1 1] := by
  have hv : (b % 256 ||| 0x100).testBit 8 = true := validBit_send b
  refine ⟨?_, ?_, or_256_ne b, by decide⟩
  · rw [printArgs_recvStep, hv, or_256_and_mask]
    rfl
  · rw [regWrites_one_recvStep, hv]
    rfl

theorem mem_mainLoop (l : Nat) (inputs : List IterIn) (evs : List Event)
    (h : evs ∈ (mainLoop l inputs).2) : ∃ l0 i, i ∈ inputs ∧ evs = (iteration l0 i).2 := by
  induction inputs generalizing l with
  | nil => simp [mainLoop] at h
  | cons i rest ih =>
    simp only [mainLoop, List.mem_cons] at h
    rcases h with h | h
    · exact ⟨l, i, List.mem_cons_self _ _, h⟩
    · obtain ⟨l0, j, hj, he⟩ := ih _ h
      exact ⟨l0, j, List.mem_cons_of_mem _ hj, he⟩

theorem fifoReads_iteration (l : Nat) (i : IterIn) :
    fifoReads (iteration l i).2 = fifoReads (sendStep l i.r3 i.uart).2 := by
  simp [iteration, fifoReads_append, fifoReads_recvStep]

/-- What one pass writes to R0: nothing, the word 0, or the packed byte. -/
theorem iteration_r0_values (l : Nat) (i : IterIn) :
    ∀ v ∈ regWrites 0 (iteration l i).2, v = 0 ∨ v = i.uart.fifo % 256 ||| 256 := by
  intro v hv
  rw [iteration_r0] at hv
  rcases sendStep_cases l i.r3 i.uart with h | h | h | h
  · rw [h.2] at hv; simp [regWrites] at hv; exact Or.inl hv
  · rw [h.2.2] at hv; simp [regWrites] at hv
  · rw [h.2.2.2] at hv; simp [regWrites] at hv
  · rw [h.2.2.2] at hv; simp [regWrites] at hv; exact Or.inr hv

/-- A pass that reads the FIFO writes the packed byte to R0, and only that. -/
theorem iteration_fifo_written (l : Nat) (i : IterIn) :
    ∀ w ∈ fifoReads (iteration l i).2,
      fifoReads (iteration l i).2 = [w] ∧ regWrites 0 (iteration l i).2 = [w % 256 ||| 256] := by
  intro w hw
  rw [fifoReads_iteration] at hw
  rw [fifoReads_iteration, iteration_r0]
  rcases sendStep_cases l i.r3 i.uart with h | h | h | h
  · rw [h.2] at hw; simp [fifoReads] at hw
  · rw [h.2.2] at hw; simp [fifoReads] at hw
  · rw [h.2.2.2] at hw; simp [fifoReads] at hw
  · rw [h.2.2.2] at hw ⊢
    simp [fifoReads] at hw
    subst hw
    simp [fifoReads, regWrites]

theorem dataByte_packed (w : Nat) : dataByte (w % 256 ||| 256) = w % 256 := by
  unfold dataByte
  have h : (0xFF : Nat) = 2 ^ 8 - 1 := by decide
  rw [h, Nat.and_pow_two_sub_one_eq_mod]
  exact or_256_mod w

/-- C6. Outbound word layout.  In every run, a pass that consumes a FIFO word
w (console byte b = w % 256) writes to R0 exactly the word b | (1 << 8): its
bits 7..0 are b, bit 8 is 1 and nothing is set above bit 8; decoding it with
the register layout gives valid = 1 and byte = b.  Every word any pass writes
to R0 is 0 or lies in 0x100..0x1FF. -/
theorem C6_outbound_word_layout (l : Nat) (inputs : List IterIn) :
    (∀ evs ∈ (mainLoop l inputs).2, ∀ w ∈ fifoReads evs,
        regWrites 0 evs = [w % 256 ||| (1 <<< 8)] ∧
          (w % 256 ||| (1 <<< 8)) % 256 = w % 256 ∧
          (w % 256 ||| (1 <<< 8)).testBit 8 = true ∧
          (w % 256 ||| (1 <<< 8)) / 2 ^ 9 = 0 ∧
          validBit (w % 256 ||| (1 <<< 8)) = true ∧
          dataByte (w % 256 ||| (1 <<< 8)) = w % 256) ∧
      (∀ evs ∈ (mainLoop l inputs).2, ∀ v ∈ regWrites 0 evs,
        v = 0 ∨ (0x100 ≤ v ∧ v ≤ 0x1FF)) := by
  have e : (1 <<< 8 : Nat) = 256 := by decide
  rw [e]
  constructor
  · intro evs hevs w hw
    obtain ⟨l0, i, _, he⟩ := mem_mainLoop l inputs evs hevs
    subst he
    refine ⟨(iteration_fifo_written l0 i w hw).2, or_256_mod w, validBit_send w, ?_,
      validBit_send w, dataByte_packed w⟩
    have := or_256_lt w
    exact Nat.div_eq_of_lt (by simpa using this)
  · intro evs hevs v hv
    obtain ⟨l0, i, _, he⟩ := mem_mainLoop l inputs evs hevs
    subst he
    rcases iteration_r0_values l0 i v hv with h | h
    · exact Or.inl h
    · right
      have h1 := or_256_ge i.uart.fifo
      have h2 := or_256_lt i.uart.fifo
      omega

theorem C6_outbound_word_layout_witness :
    [Event.readReg 3 1, Event.uartStatus true, Event.uartFifo 0x41, Event.writeReg 0 0x141,
        Event.readReg 2 0, Event.writeReg 1 0] ∈
        (mainLoop 0 [IterIn.mk 1 (Uart.mk true 0x41) 0]).2 ∧
      0x41 ∈ fifoReads [Event.readReg 3 1, Event.uartStatus true, Event.uartFifo 0x41,
        Event.writeReg 0 0x141, Event.readReg 2 0, Event.writeReg 1 0] ∧
      regWrites 0 [Event.readReg 3 1, Event.uartStatus true, Event.uartFifo 0x41,
        Event.writeReg 0 0x141, Event.readReg 2 0, Event.writeReg 1 0] =
        [0x41 % 256 ||| (1 <<< 8)] ∧
      dataByte (0x41 % 256 ||| (1 <<< 8)) = 0x41 % 256 :=
  have h := (C6_outbound_word_layout 0 [IterIn.mk 1 (Uart.mk true 0x41) 0]).1
    [Event.readReg 3 1, Event.uartStatus true, Event.uartFifo 0x41, Event.writeReg 0 0x141,
      Event.readReg 2 0, Event.writeReg 1 0] (by decide) 0x41 (by decide)
  ⟨by decide, by decide, h.1, h.2.2.2.2.2⟩

theorem mainLoop_map (l : Nat) (inputs : List IterIn) (f : List Event → List Nat)
    (g : IterIn → List Nat) (h : ∀ l0 i, f (iteration l0 i).2 = g i) :
    (mainLoop l inputs).2.map f = inputs.map g := by
  induction inputs generalizing l with
  | nil => simp [mainLoop]
  | cons i rest ih => simp [mainLoop, h, ih]

theorem flatten_print_filter (inputs : List IterIn) :
    (inputs.map fun i => if i.r2.testBit 8 then [i.r2 &&& 0xFFFF] else []).flatten =
      (inputs.filter fun i => i.r2.testBit 8).map fun i => i.r2 &&& 0xFFFF := by
  induction inputs with
  | nil => simp
  | cons i rest ih =>
    cases hb : i.r2.testBit 8 <;> simp [List.filter_cons, hb, ih]

/-- C7. Level-triggered receive with no deduplication.  Over any run, the
print calls are, in pass order, one per pass whose R2 word has bit 8 set
(handed that word masked with 0xFFFF), so their number is the number of such
passes, and the R1 write of a pass is 1 on exactly those passes and 0 on the
others.  With R2 = 0x15A (the letter Z with the valid bit) on two consecutive
passes and then a word with bit 8 clear there are two print calls, each for
the word whose byte field is Z (0x5A), and the R1 writes are 1, 1, 0. -/
theorem C7_level_triggered_receive (l : Nat) (inputs : List IterIn) :
    (mainLoop l inputs).2.map printArgs =
        (inputs.map fun i => if i.r2.testBit 8 then [i.r2 &&& 0xFFFF] else []) ∧
      ((mainLoop l inputs).2.map printArgs).flatten =
        ((inputs.filter fun i => i.r2.testBit 8).map fun i => i.r2 &&& 0xFFFF) ∧
      ((mainLoop l inputs).2.map printArgs).flatten.length =
        inputs.countP (fun i => i.r2.testBit 8) ∧
      (mainLoop l inputs).2.map (regWrites 1) =
        (inputs.map fun i => [if i.r2.testBit 8 then 1 else 0]) ∧
      ∀ (a b c : Nat) (u v w : Uart) (z : Nat), z.testBit 8 = false →
        (mainLoop l [IterIn.mk a u 0x15A, IterIn.mk b v 0x15A, IterIn.mk c w z]).2.map
            printArgs = [[0x15A], [0x15A], []] ∧
          dataByte 0x15A = 0x5A ∧
          (mainLoop l [IterIn.mk a u 0x15A, IterIn.mk b v 0x15A, IterIn.mk c w z]).2.map
            (regWrites 1) = [[1], [1], [0]] := by
  have hp : ∀ (l : Nat) (inputs : List IterIn), (mainLoop l inputs).2.map printArgs =
      (inputs.map fun i => if i.r2.testBit 8 then [i.r2 &&& 0xFFFF] else []) :=
    fun l inputs => mainLoop_map l inputs printArgs _ printArgs_iteration
  have hr : ∀ (l : Nat) (inputs : List IterIn), (mainLoop l inputs).2.map (regWrites 1) =
      (inputs.map fun i => [if i.r2.testBit 8 then 1 else 0]) :=
    fun l inputs => mainLoop_map l inputs (regWrites 1) _ (fun l0 i => regWrites_one_iteration l0 i)
  refine ⟨hp l inputs, ?_, ?_, hr l inputs, ?_⟩
  · rw [hp, flatten_print_filter]
  · rw [hp, flatten_print_filter, List.length_map, List.countP_eq_length_filter]
  · intro a b c u v w z hz
    refine ⟨?_, by decide, ?_⟩
    · rw [hp]
      have h1 : Nat.testBit 0x15A 8 = true := by decide
      have h2 : (0x15A : Nat) &&& 0xFFFF = 0x15A := by decide
      simp [h1, h2, hz]
    · rw [hr]
      have h1 : Nat.testBit 0x15A 8 = true := by decide
      simp [h1, hz]

theorem C7_level_triggered_receive_witness :
    Nat.testBit 0x5A 8 = false ∧
      (mainLoop 0 [IterIn.mk 0 (Uart.mk false 0) 0x15A, IterIn.mk 1 (Uart.mk true 0x41) 0x15A,
          IterIn.mk 1 (Uart.mk true 0x42) 0x5A]).2.map printArgs = [[0x15A], [0x15A], []] ∧
      dataByte 0x15A = 0x5A ∧
      (mainLoop 0 [IterIn.mk 0 (Uart.mk false 0) 0x15A, IterIn.mk 1 (Uart.mk true 0x41) 0x15A,
          IterIn.mk 1 (Uart.mk true 0x42) 0x5A]).2.map (regWrites 1) = [[1], [1], [0]] :=
  ⟨by decide, (C7_level_triggered_receive 0 []).2.2.2.2 0 1 1 (Uart.mk false 0)
    (Uart.mk true 0x41) (Uart.mk true 0x42) 0x5A (by decide)⟩

theorem sendRequest_eq_ite (r3 : Nat) : sendRequest r3 = if r3.testBit 0 then 1 else 0 := by
  rw [sendRequest_eq_mod, Nat.testBit_zero]
  rcases Nat.mod_two_eq_zero_or_one r3 with h | h <;> simp [h]

theorem testBit_zero_false_iff (n : Nat) : n.testBit 0 = false ↔ n % 2 = 0 := by
  rw [Nat.testBit_zero]
  rcases Nat.mod_two_eq_zero_or_one n with h | h <;> simp [h]

/-- C8 as stated fails on the code.  R3 = 2 is nonzero, yet the send step
takes the deassert branch and writes 0 to R0; and after R3 = 1 has been
serviced, R3 = 3 (a different nonzero value) with a byte available sends
nothing. -/
theorem C8_counterexample :
    ¬ (Event.writeReg 0 0 ∈ (sendStep 0 2 (Uart.mk true 0x41)).2 ↔ (2 : Nat) = 0) ∧
      (iteration 0 (IterIn.mk 1 (Uart.mk true 0x41) 0)).1 = 1 ∧
      (1 : Nat) ≠ 3 ∧
      regWrites 0 (iteration (iteration 0 (IterIn.mk 1 (Uart.mk true 0x41) 0)).1
        (IterIn.mk 3 (Uart.mk true 0x42) 0)).2 = [] := by
  decide

/-- C8 (amended).  The send step uses only bit 0 of the word read from R3 as
send_request.  For every R3 word the request value is 1 when bit 0 is set and
0 otherwise, and the deassert branch (the write of 0 to R0) is taken exactly
when bit 0 is clear.  With the latch at 1, any R3 word with bit 0 set, equal
to the serviced one or not, is no new edge: the pass only reads R3.  With the
latch not 1, a word with bit 0 set and a byte available triggers the send. -/
theorem C8_request_is_bit_zero (l r3 : Nat) (u : Uart) :
    sendRequest r3 = (if r3.testBit 0 then 1 else 0) ∧
      (Event.writeReg 0 0 ∈ (sendStep l r3 u).2 ↔ r3.testBit 0 = false) ∧
      (r3.testBit 0 = true → sendStep 1 r3 u = (1, [Event.readReg 3 r3])) ∧
      (r3.testBit 0 = true → l ≠ 1 → u.rxData = true →
        (sendStep l r3 u).1 = 1 ∧
          regWrites 0 (sendStep l r3 u).2 = [u.fifo % 256 ||| 0x100]) := by
  refine ⟨sendRequest_eq_ite r3, ?_, ?_, ?_⟩
  · rw [testBit_zero_false_iff]
    have hne : u.fifo % 256 ||| 256 ≠ 0 := by
      have := or_256_ge u.fifo
      omega
    rcases sendStep_cases l r3 u with h | h | h | h
    · rw [h.2]; simp [h.1]
    · rw [h.2.2]; simp [h.1]
    · rw [h.2.2.2]; simp [h.1]
    · rw [h.2.2.2]; simp [h.1, Ne.symm hne]
  · intro hb
    exact sendStep_serviced r3 u ((testBit_zero_iff _).1 hb)
  · intro hb hl hu
    rw [sendStep_send l r3 u ((testBit_zero_iff _).1 hb) hl hu]
    simp [regWrites]

theorem C8_request_is_bit_zero_witness :
    Nat.testBit 3 0 = true ∧ (0 : Nat) ≠ 1 ∧ (Uart.mk true 0x42).rxData = true ∧
      sendStep 1 3 (Uart.mk true 0x42) = (1, [Event.readReg 3 3]) ∧
      (sendStep 0 3 (Uart.mk true 0x42)).1 = 1 ∧
      regWrites 0 (sendStep 0 3 (Uart.mk true 0x42)).2 = [0x42 % 256 ||| 0x100] :=
  ⟨by decide, by decide, rfl,
    (C8_request_is_bit_zero 0 3 (Uart.mk true 0x42)).2.2.1 (by decide),
    (C8_request_is_bit_zero 0 3 (Uart.mk true 0x42)).2.2.2 (by decide) (by decide) rfl⟩

/-- The latch after a pass: the request value when the pass counts for the
latch, the old latch otherwise. -/
theorem iteration_latch_relevant (l : Nat) (i : IterIn) :
    (iteration l i).1 = (if latchRelevant i (iteration l i).2 then sendRequest i.r3 else l) := by
  unfold latchRelevant
  rw [validSends_iteration, iteration_latch, sendRequest_eq_mod]
  rcases sendStep_cases l i.r3 i.uart with h | h | h | h
  · rw [h.2]; simp [h.1]
  · rw [h.2.2]; simp [h.1, regWrites]
  · rw [h.2.2.2]; simp [h.1, regWrites]
  · rw [h.2.2.2]; simp [h.1, regWrites, validBit_send]

theorem mainLoop_latch (l : Nat) (inputs : List IterIn) :
    (mainLoop l inputs).1 =
      match (inputs.zip (mainLoop l inputs).2).reverse.find? fun p => latchRelevant p.1 p.2 with
      | some p => sendRequest p.1.r3
      | none => l := by
  induction inputs using List.reverseRecOn with
  | nil => simp [mainLoop]
  | append_singleton xs x ih =>
    rw [mainLoop_append]
    simp only [mainLoop]
    rw [List.zip_append (by rw [mainLoop_length])]
    simp only [List.zip_cons_cons, List.zip_nil_right, List.reverse_append, List.reverse_cons,
      List.reverse_nil, List.nil_append, List.singleton_append, List.find?_cons]
    rw [iteration_latch_relevant]
    cases hrel : latchRelevant x (iteration (mainLoop l xs).1 x).2
    · simp only [Bool.false_eq_true, if_false]
      exact ih
    · simp

/-- C9. Latch meaning.  At startup last_send_request is 0.  After any number
of passes from startup it equals the request value observed at the most
recent pass that wrote a valid byte to R0 or observed the request deasserted,
and 0 when no pass did.  A pass that does neither leaves it unchanged. -/
theorem C9_latch_meaning (inputs : List IterIn) :
    (main []).2.1 = 0 ∧
      (main inputs).2.1 = latchSpec (inputs.zip (main inputs).2.2) ∧
      ∀ (l : Nat) (i : IterIn), latchRelevant i (iteration l i).2 = false →
        (iteration l i).1 = l := by
  refine ⟨rfl, ?_, ?_⟩
  · simp only [main, latchSpec]
    exact mainLoop_latch 0 inputs
  · intro l i h
    rw [iteration_latch_relevant, h]
    simp

theorem C9_latch_meaning_witness :
    latchRelevant (IterIn.mk 1 (Uart.mk false 0) 0)
        (iteration 0 (IterIn.mk 1 (Uart.mk false 0) 0)).2 = false ∧
      (iteration 0 (IterIn.mk 1 (Uart.mk false 0) 0)).1 = 0 :=
  ⟨by decide, (C9_latch_meaning []).2.2 0 (IterIn.mk 1 (Uart.mk false 0) 0) (by decide)⟩

theorem consoleCalls_append (a b : List Event) :
    consoleCalls (a ++ b) = consoleCalls a + consoleCalls b := by
  simp [consoleCalls, List.countP_append]

theorem consoleCalls_recvStep (r2 : Nat) : consoleCalls (recvStep r2) = 0 := by
  rw [recvStep_cases]
  cases r2.testBit 8 <;> simp [consoleCalls]

/-- C10. Input is consulted only on an unserviced edge.  In every pass the
console read routine is called once when the request value is nonzero and
differs from last_send_request, and not at all otherwise; so while the
request is deasserted or already serviced no FIFO word is read.  Every FIFO
word read in a pass is the only one read in that pass and its byte is written
to R0 with the valid bit in that same pass, so no consumed byte is dropped. -/
theorem C10_console_read_only_on_edge (l : Nat) (i : IterIn) :
    consoleCalls (iteration l i).2 =
        (if sendRequest i.r3 ≠ 0 ∧ sendRequest i.r3 ≠ l then 1 else 0) ∧
      (sendRequest i.r3 = 0 ∨ sendRequest i.r3 = l → fifoReads (iteration l i).2 = []) ∧
      ∀ w ∈ fifoReads (iteration l i).2,
        fifoReads (iteration l i).2 = [w] ∧
          regWrites 0 (iteration l i).2 = [w % 256 ||| (1 <<< 8)] ∧
          validBit (w % 256 ||| (1 <<< 8)) = true ∧
          dataByte (w % 256 ||| (1 <<< 8)) = w % 256 := by
  refine ⟨?_, ?_, ?_⟩
  · simp only [iteration]
    rw [consoleCalls_append, consoleCalls_recvStep, sendRequest_eq_mod]
    rcases sendStep_cases l i.r3 i.uart with h | h | h | h
    · rw [h.2]; simp [h.1, consoleCalls]
    · rw [h.2.2]; simp [h.1, h.2.1, consoleCalls]
    · rw [h.2.2.2]; simp [h.1, Ne.symm h.2.1, consoleCalls]
    · rw [h.2.2.2]; simp [h.1, Ne.symm h.2.1, consoleCalls]
  · rw [fifoReads_iteration, sendRequest_eq_mod]
    intro hs
    rcases sendStep_cases l i.r3 i.uart with h | h | h | h
    · rw [h.2]; simp [fifoReads]
    · rw [h.2.2]; simp [fifoReads]
    · rw [h.2.2.2]; simp [fifoReads]
    · exfalso
      rcases hs with hs | hs
      · omega
      · exact h.2.1 (by omega)
  · intro w hw
    have e : (1 <<< 8 : Nat) = 256 := by decide
    rw [e]
    exact ⟨(iteration_fifo_written l i w hw).1, (iteration_fifo_written l i w hw).2,
      validBit_send w, dataByte_packed w⟩

theorem C10_console_read_only_on_edge_witness :
    (sendRequest (IterIn.mk 1 (Uart.mk true 0x41) 0).r3 = 0 ∨
        sendRequest (IterIn.mk 1 (Uart.mk true 0x41) 0).r3 = 1) ∧
      fifoReads (iteration 1 (IterIn.mk 1 (Uart.mk true 0x41) 0)).2 = [] :=
  ⟨by decide, (C10_console_read_only_on_edge 1 (IterIn.mk 1 (Uart.mk true 0x41) 0)).2.1
    (by decide)⟩

theorem writtenRegs_append (a b : List Event) :
    writtenRegs (a ++ b) = writtenRegs a ++ writtenRegs b := by
  simp [writtenRegs, List.filterMap_append]

theorem writtenRegs_recvStep (r2 : Nat) : writtenRegs (recvStep r2) = [1] := by
  rw [recvStep_cases]
  cases r2.testBit 8 <;> simp [writtenRegs]

theorem writtenRegs_sendStep (l r3 : Nat) (u : Uart) :
    writtenRegs (sendStep l r3 u).2 = [] ∨ writtenRegs (sendStep l r3 u).2 = [0] := by
  rcases sendStep_cases l r3 u with h | h | h | h
  · rw [h.2]; simp [writtenRegs]
  · rw [h.2.2]; simp [writtenRegs]
  · rw [h.2.2.2]; simp [writtenRegs]
  · rw [h.2.2.2]; simp [writtenRegs]

/-- C11. Write frame of one pass.  In every run the registers written in a
pass are R1 alone or R0 then R1, never R2 or R3 (and the greeting printed at
startup writes none).  The send step writes no register other than R0 and in
particular never R1; the latch it returns is the latch of the whole pass.
The receive step writes R1 and nothing else, never R0, and the latch after
the pass is the one the send step left, so the receive step does not change
it. -/
theorem C11_write_frame (l : Nat) (inputs : List IterIn) (i : IterIn) :
    (∀ evs ∈ (mainLoop l inputs).2, ∀ idx ∈ writtenRegs evs, idx = 0 ∨ idx = 1) ∧
      writtenRegs (main inputs).1 = [] ∧
      (∀ idx ∈ writtenRegs (sendStep l i.r3 i.uart).2, idx = 0) ∧
      regWrites 1 (sendStep l i.r3 i.uart).2 = [] ∧
      writtenRegs (recvStep i.r2) = [1] ∧
      regWrites 0 (recvStep i.r2) = [] ∧
      (iteration l i).1 = (sendStep l i.r3 i.uart).1 ∧
      (iteration l i).2 = (sendStep l i.r3 i.uart).2 ++ recvStep i.r2 := by
  refine ⟨?_, by simp [main, writtenRegs], ?_, regWrites_one_sendStep _ _ _,
    writtenRegs_recvStep _, regWrites_zero_recvStep _, rfl, rfl⟩
  · intro evs hevs idx hidx
    obtain ⟨l0, j, _, he⟩ := mem_mainLoop l inputs evs hevs
    subst he
    simp only [iteration] at hidx
    rw [writtenRegs_append, writtenRegs_recvStep] at hidx
    rcases writtenRegs_sendStep l0 j.r3 j.uart with h | h
    · rw [h] at hidx; simp at hidx; exact Or.inr hidx
    · rw [h] at hidx; simp at hidx; exact hidx
  · intro idx hidx
    rcases writtenRegs_sendStep l i.r3 i.uart with h | h
    · rw [h] at hidx; simp at hidx
    · rw [h] at hidx; simp at hidx; exact hidx

theorem C11_write_frame_witness :
    [Event.readReg 3 1, Event.uartStatus true, Event.uartFifo 0x41, Event.writeReg 0 0x141,
        Event.readReg 2 0x15A, Event.printc 0x15A, Event.writeReg 1 1] ∈
        (mainLoop 0 [IterIn.mk 1 (Uart.mk true 0x41) 0x15A]).2 ∧
      1 ∈ writtenRegs [Event.readReg 3 1, Event.uartStatus true, Event.uartFifo 0x41,
        Event.writeReg 0 0x141, Event.readReg 2 0x15A, Event.printc 0x15A,
        Event.writeReg 1 1] ∧
      ((1 : Nat) = 0 ∨ (1 : Nat) = 1) :=
  ⟨by decide, by decide,
    (C11_write_frame 0 [IterIn.mk 1 (Uart.mk true 0x41) 0x15A]
      (IterIn.mk 1 (Uart.mk true 0x41) 0x15A)).1
      [Event.readReg 3 1, Event.uartStatus true, Event.uartFifo 0x41, Event.writeReg 0 0x141,
        Event.readReg 2 0x15A, Event.printc 0x15A, Event.writeReg 1 1] (by decide) 1
      (by decide)⟩

/-- C12. The routine unwaited_read is a try-read that never waits: it makes
one status query and at most one FIFO read and then returns.  When the UART
reports no receive data it stores 0 through the valid pointer, returns 0 and
does not read the FIFO register.  When the UART reports receive data it
stores a nonzero value, reads the FIFO register exactly once and returns the
low 8 bits of the word read. -/
theorem C12_unwaited_read_try_read (u : Uart) :
    consoleCalls (unwaited_read u).events = 1 ∧
      (unwaited_read u).events.length ≤ 2 ∧
      (u.rxData = false →
        (unwaited_read u).valid = 0 ∧ (unwaited_read u).byte = 0 ∧
          fifoReads (unwaited_read u).events = [] ∧
          (unwaited_read u).events = [Event.uartStatus false]) ∧
      (u.rxData = true →
        (unwaited_read u).valid ≠ 0 ∧ fifoReads (unwaited_read u).events = [u.fifo] ∧
          (unwaited_read u).byte = u.fifo &&& 0xFF ∧
          (unwaited_read u).byte = u.fifo % 256 ∧
          (unwaited_read u).events = [Event.uartStatus true, Event.uartFifo u.fifo]) := by
  have hm : u.fifo &&& 0xFF = u.fifo % 256 := by
    have h : (0xFF : Nat) = 2 ^ 8 - 1 := by decide
    rw [h, Nat.and_pow_two_sub_one_eq_mod]
  cases hu : u.rxData with
  | false => simp [unwaited_read, hu, consoleCalls, fifoReads]
  | true => simp [unwaited_read, hu, consoleCalls, fifoReads, hm]

theorem C12_unwaited_read_try_read_witness :
    (Uart.mk true 0x341).rxData = true ∧
      (unwaited_read (Uart.mk true 0x341)).valid ≠ 0 ∧
      fifoReads (unwaited_read (Uart.mk true 0x341)).events = [0x341] ∧
      (unwaited_read (Uart.mk true 0x341)).byte = 0x341 % 256 :=
  have h := (C12_unwaited_read_try_read (Uart.mk true 0x341)).2.2.2 rfl
  ⟨rfl, h.1, h.2.1, h.2.2.2.1⟩

/-- C13. Fixed order inside a pass.  For every latch and input the events of
a pass are, in this order: the read of R3; the console read (status query
and, if data is reported, the FIFO read), present exactly when the request
is an unserviced edge; the R0 write, if any; the read of R2; the print call,
if any; the R1 write.  So an R0 write comes before the print call and the R1
write of its pass, there is at most one R0 write and one print call, and R3
and R2 are each read exactly once. -/
theorem C13_fixed_order (l : Nat) (i : IterIn) :
    (iteration l i).2 =
        Event.readReg 3 i.r3 ::
          ((if sendRequest i.r3 ≠ 0 ∧ sendRequest i.r3 ≠ l then (unwaited_read i.uart).events
              else []) ++
            (regWrites 0 (iteration l i).2).map (Event.writeReg 0) ++
            Event.readReg 2 i.r2 ::
              ((printArgs (iteration l i).2).map Event.printc ++
                [Event.writeReg 1 (if i.r2.testBit 8 then 1 else 0)])) ∧
      (regWrites 0 (iteration l i).2).length ≤ 1 ∧
      (printArgs (iteration l i).2).length ≤ 1 ∧
      regReads 3 (iteration l i).2 = [i.r3] ∧
      regReads 2 (iteration l i).2 = [i.r2] := by
  rw [printArgs_iteration, iteration_r0, sendRequest_eq_mod]
  simp only [iteration]
  rw [recvStep_cases]
  rcases sendStep_cases l i.r3 i.uart with h | h | h | h
  · rw [h.2]
    cases i.r2.testBit 8 <;> simp [h.1, regWrites, regReads]
  · rw [h.2.2]
    cases i.r2.testBit 8 <;> simp [h.1, h.2.1, regWrites, regReads]
  · rw [h.2.2.2]
    cases i.r2.testBit 8 <;>
      simp [h.1, Ne.symm h.2.1, h.2.2.1, unwaited_read, regWrites, regReads]
  · rw [h.2.2.2]
    cases i.r2.testBit 8 <;>
      simp [h.1, Ne.symm h.2.1, h.2.2.1, unwaited_read, regWrites, regReads]

theorem consoleCalls_iteration (l : Nat) (i : IterIn) :
    consoleCalls (iteration l i).2 = consoleCalls (sendStep l i.r3 i.uart).2 := by
  simp [iteration, consoleCalls_append, consoleCalls_recvStep]

/-- C15. The two directions do not interfere.  Two passes with the same
latch, the same R3 word and the same UART state but different R2 words make
the same R0 write, the same console accesses and leave the same latch.  Two
passes with the same R2 word but different latch, R3 word and UART state make
the same print call and the same R1 write. -/
theorem C15_directions_do_not_interfere (l k r3 s3 r2 s2 : Nat) (u v : Uart) :
    (regWrites 0 (iteration l (IterIn.mk r3 u r2)).2 =
          regWrites 0 (iteration l (IterIn.mk r3 u s2)).2 ∧
        consoleCalls (iteration l (IterIn.mk r3 u r2)).2 =
          consoleCalls (iteration l (IterIn.mk r3 u s2)).2 ∧
        fifoReads (iteration l (IterIn.mk r3 u r2)).2 =
          fifoReads (iteration l (IterIn.mk r3 u s2)).2 ∧
        (iteration l (IterIn.mk r3 u r2)).1 = (iteration l (IterIn.mk r3 u s2)).1) ∧
      (printArgs (iteration l (IterIn.mk r3 u r2)).2 =
          printArgs (iteration k (IterIn.mk s3 v r2)).2 ∧
        regWrites 1 (iteration l (IterIn.mk r3 u r2)).2 =
          regWrites 1 (iteration k (IterIn.mk s3 v r2)).2) := by
  refine ⟨⟨?_, ?_, ?_, rfl⟩, ?_, ?_⟩
  · rw [iteration_r0, iteration_r0]
  · rw [consoleCalls_iteration, consoleCalls_iteration]
  · rw [fifoReads_iteration, fifoReads_iteration]
  · rw [printArgs_iteration, printArgs_iteration]
  · rw [regWrites_one_iteration, regWrites_one_iteration]

theorem regWrites_flatten_cons (idx : Nat) (e : List Event) (rest : List (List Event)) :
    regWrites idx (e :: rest).flatten = regWrites idx e ++ regWrites idx rest.flatten := by
  rw [List.flatten_cons, regWrites_append]

/-- One pass keeps the latch in step with the last R0 write: ws are the R0
writes made before the pass. -/
theorem iteration_coherent (l : Nat) (i : IterIn) (ws : List Nat)
    (hl : l = 0 ∨ l = 1)
    (hc : l ≠ 0 ↔ ∃ v, ws.getLast? = some v ∧ validBit v = true) :
    ((iteration l i).1 = 0 ∨ (iteration l i).1 = 1) ∧
      ((iteration l i).1 ≠ 0 ↔
        ∃ v, (ws ++ regWrites 0 (iteration l i).2).getLast? = some v ∧ validBit v = true) := by
  rw [iteration_r0, iteration_latch]
  rcases sendStep_cases l i.r3 i.uart with h | h | h | h
  · rw [h.2]
    simp [regWrites, validBit]
  · rw [h.2.2]
    simp only [regWrites, List.filterMap_cons, List.filterMap_nil, List.append_nil]
    exact ⟨hl, hc⟩
  · rw [h.2.2.2]
    simp only [regWrites, List.filterMap_cons, List.filterMap_nil, List.append_nil]
    exact ⟨hl, hc⟩
  · rw [h.2.2.2]
    have hv := validBit_send i.uart.fifo
    simp [regWrites, hv]

theorem mainLoop_coherent (l : Nat) (inputs : List IterIn) (ws : List Nat)
    (hl : l = 0 ∨ l = 1)
    (hc : l ≠ 0 ↔ ∃ v, ws.getLast? = some v ∧ validBit v = true) :
    ((mainLoop l inputs).1 = 0 ∨ (mainLoop l inputs).1 = 1) ∧
      ((mainLoop l inputs).1 ≠ 0 ↔
        ∃ v, (ws ++ regWrites 0 (mainLoop l inputs).2.flatten).getLast? = some v ∧
          validBit v = true) := by
  induction inputs generalizing l ws with
  | nil =>
    simp only [mainLoop, List.flatten_nil, regWrites, List.filterMap_nil, List.append_nil]
    exact ⟨hl, hc⟩
  | cons i rest ih =>
    have hstep := iteration_coherent l i ws hl hc
    have := ih (iteration l i).1 (ws ++ regWrites 0 (iteration l i).2) hstep.1 hstep.2
    simp only [mainLoop]
    rw [regWrites_flatten_cons, ← List.append_assoc]
    exact this

theorem regWrites_zero_run_serviced (run : List IterIn) :
    regWrites 0 (run.map fun i => Event.readReg 3 i.r3 :: recvStep i.r2).flatten = [] := by
  induction run with
  | nil => simp [regWrites]
  | cons i rest ih =>
    rw [List.map_cons, regWrites_flatten_cons, regWrites_zero_serviced, ih]
    rfl

/-- C14. Latch and R0 stay coherent.  After any number of passes from
startup, last_send_request is 0 or 1, and it is nonzero exactly when the
word most recently written to R0 has its valid bit set; in particular it is
0 as long as R0 has never been written.  Hence, once the latch is 1, the
valid word stays the last word written to R0 over any further passes that
read the request asserted, and the first pass that reads it deasserted
replaces it by 0. -/
theorem C14_latch_r0_coherence (inputs : List IterIn) :
    ((main inputs).2.1 = 0 ∨ (main inputs).2.1 = 1) ∧
      ((main inputs).2.1 ≠ 0 ↔
        ∃ v, lastR0Write (main inputs).2.2 = some v ∧ validBit v = true) ∧
      (lastR0Write (main inputs).2.2 = none → (main inputs).2.1 = 0) ∧
      (∀ run : List IterIn, (main inputs).2.1 = 1 → (∀ i ∈ run, i.r3.testBit 0 = true) →
        lastR0Write (main (inputs ++ run)).2.2 = lastR0Write (main inputs).2.2 ∧
          (main (inputs ++ run)).2.1 = 1) ∧
      (∀ i : IterIn, i.r3.testBit 0 = false →
        lastR0Write (main (inputs ++ [i])).2.2 = some 0 ∧
          (main (inputs ++ [i])).2.1 = 0) := by
  have h := mainLoop_coherent 0 inputs [] (Or.inl rfl) (by simp)
  simp only [List.nil_append] at h
  refine ⟨h.1, h.2, ?_, ?_, ?_⟩
  · intro hn
    by_contra hne
    obtain ⟨v, hv, _⟩ := h.2.1 hne
    simp only [main, lastR0Write] at hn
    rw [hn] at hv
    cases hv
  · intro run h1 hrun
    simp only [main] at h1
    simp only [main, lastR0Write]
    rw [mainLoop_append, h1,
      run_serviced run (fun i hi => (testBit_zero_iff _).1 (hrun i hi))]
    simp only [List.flatten_append, regWrites_append, regWrites_zero_run_serviced,
      List.append_nil]
    trivial
  · intro i hi
    have hs := sendStep_deassert (mainLoop 0 inputs).1 i.r3 i.uart
      ((testBit_zero_false_iff _).1 hi)
    simp only [main, lastR0Write]
    rw [mainLoop_append]
    simp only [mainLoop, iteration, hs, List.flatten_append, regWrites_append,
      List.flatten_cons, List.flatten_nil, List.append_nil, regWrites_zero_recvStep]
    simp [regWrites]

theorem C14_latch_r0_coherence_witness :
    (main [IterIn.mk 1 (Uart.mk true 0x41) 0]).2.1 = 1 ∧
      (∀ i ∈ [IterIn.mk 3 (Uart.mk true 0x42) 0, IterIn.mk 1 (Uart.mk false 0) 0x15A],
        i.r3.testBit 0 = true) ∧
      lastR0Write (main ([IterIn.mk 1 (Uart.mk true 0x41) 0] ++
          [IterIn.mk 3 (Uart.mk true 0x42) 0, IterIn.mk 1 (Uart.mk false 0) 0x15A])).2.2 =
        lastR0Write (main [IterIn.mk 1 (Uart.mk true 0x41) 0]).2.2 ∧
      lastR0Write (main [IterIn.mk 1 (Uart.mk true 0x41) 0]).2.2 = some 0x141 :=
  ⟨by decide, by decide,
    ((C14_latch_r0_coherence [IterIn.mk 1 (Uart.mk true 0x41) 0]).2.2.2.1
      [IterIn.mk 3 (Uart.mk true 0x42) 0, IterIn.mk 1 (Uart.mk false 0) 0x15A]
      (by decide) (by decide)).1,
    by decide⟩

end Vitis
